import Mathlib

/- Verification development for the go-textile-wallet repository.

The embedding covers:
* `B58` — the base58 codec (external dependency `mr-tron/base58`, used by
  `key/key.go` through `FastBase58Encoding` / `FastBase58Decoding`);
* `Crc16` — the repository's `crc16` package (not present under `src/`,
  modelled from the spec);
* `Key`  — `key/key.go`: `Decode`, `Encode`, `MustDecode`, `MustEncode`,
  `Version`, `checkValidVersionByte`, `decodeString`;
* `Account` — `account/main.go`, `account/full.go`,
  `account/from_address.go`: `Parse`, `FromRawSeed`, and the per-variant
  operations, parameterised over the external ed25519 primitive;
* `Wallet` — the wallet word-count handling (`NewWordCount`,
  `EntropySize`, `FromWordCount`), parameterised over the external
  entropy/mnemonic machinery.

Bytes are modelled as `Nat` values together with `< 256` bounds where they
matter; byte strings are `List Nat`; Go `error` results become an `Err`
inductive, with one constructor per distinct error the embedded code can
produce. -/

set_option maxRecDepth 10000

deriving instance DecidableEq for Except

/-- Fuel-bounded little-endian base-`b` digit expansion; with fuel `≥ n` it
agrees with Mathlib's `Nat.digits` (see `digitsLE_eq`). A structural
recursion is used so that the kernel can evaluate it. -/
def digitsFuel (b : Nat) : Nat → Nat → List Nat
  | 0, _ => []
  | fuel + 1, n => if n = 0 then [] else n % b :: digitsFuel b fuel (n / b)

/-- Little-endian base-`b` digits of `n` (executable form of `Nat.digits`). -/
def digitsLE (b n : Nat) : List Nat := digitsFuel b n n

/-- Value of a little-endian digit list (executable form of `Nat.ofDigits`). -/
def ofDigitsLE (b : Nat) : List Nat → Nat
  | [] => 0
  | d :: ds => d + b * ofDigitsLE b ds

namespace B58

/-- The bitcoin base58 alphabet used by `mr-tron/base58` (the repository's
base58 dependency): digits and letters with `0`, `O`, `I`, `l` removed. -/
def alphabet : List Char :=
  "123456789ABCDEFGHJKLMNPQRSTUVWXYZabcdefghijkmnopqrstuvwxyz".toList

/-- Character of a base58 digit (`d < 58`). -/
def b58Char (d : Nat) : Char := alphabet.getD d '1'

/-- Digit of a base58 character; `none` when the character is not in the
alphabet (mr-tron's decode loop fails on the first such character). -/
def b58Digit (c : Char) : Option Nat :=
  let i := alphabet.indexOf c
  if i < 58 then some i else none

/-- Digit values of a character list; `none` as soon as one character is
outside the alphabet. -/
def b58Digits : List Char → Option (List Nat)
  | [] => some []
  | c :: cs =>
    match b58Digit c, b58Digits cs with
    | some d, some ds => some (d :: ds)
    | _, _ => none

/-- `FastBase58Encoding` of `mr-tron/base58`: each leading zero byte becomes
a `'1'`, the rest is the big-endian base256 value rewritten in base58. -/
def encode (bs : List Nat) : String :=
  let z := (bs.takeWhile (· == 0)).length
  let n := ofDigitsLE 256 bs.reverse
  String.mk (List.replicate z '1' ++ (digitsLE 58 n).reverse.map b58Char)

/-- `FastBase58Decoding` of `mr-tron/base58`: fails on the empty string and
on any character outside the alphabet; otherwise each leading `'1'` becomes
a zero byte and the base58 value of the string is rewritten as minimal
big-endian base256 bytes. -/
def decode (s : String) : Option (List Nat) :=
  let cs := s.toList
  if cs = [] then none
  else
    match b58Digits cs with
    | none => none
    | some ds =>
      some (List.replicate (cs.takeWhile (· == '1')).length 0
        ++ (digitsLE 256 (ofDigitsLE 58 ds.reverse)).reverse)

end B58

/-- The closed error enumeration: one constructor per distinct error value
the embedded Go code can produce (`key.ErrInvalidVersionByte`, the two
`decodeString` errors, the crc16 validation error, the `account` package
sentinels, and the wallet's word-count error). -/
inductive Err where
  | invalidVersionByte
  | base58DecodeFailed
  | belowMinLength (n : Nat)
  | invalidChecksum
  | invalidKey
  | invalidSignature
  | noSeed
  | cannotSign
  | cannotDecrypt
  | invalidWordCount
  deriving DecidableEq, Repr

namespace Crc16

/-- Modelled from the spec: the repository's `crc16` package is imported by
`key/key.go` but its source is not under `src/`. The spec fixes the contract
`checksum(bytes) -> 2 bytes` / `validate(bytes, checksum) -> ok/fail`,
deterministic and stateless, and allows any standard 16-bit CRC as long as
encode and decode agree. We model CRC-16/XMODEM (polynomial 0x1021): one
shift-and-conditionally-xor round. -/
def crcRound (c : Nat) : Nat :=
  if c &&& 0x8000 = 0 then (c <<< 1) % 65536 else ((c <<< 1) ^^^ 0x1021) % 65536

/-- Modelled from the spec: fold one byte into the CRC state (xor into the
high byte, then eight `crcRound` steps). -/
def crcByte (c b : Nat) : Nat :=
  crcRound (crcRound (crcRound (crcRound (crcRound (crcRound (crcRound (crcRound
    ((c ^^^ ((b % 256) <<< 8)) % 65536))))))))

/-- Modelled from the spec: the 16-bit checksum of a byte string. -/
def checksum16 (bs : List Nat) : Nat := bs.foldl crcByte 0

/-- Modelled from the spec: `checksum(bytes) -> 2 bytes`, the 16-bit CRC
emitted as two bytes (little-endian). -/
def Checksum (bs : List Nat) : List Nat :=
  [checksum16 bs % 256, checksum16 bs / 256 % 256]

/-- Modelled from the spec: `validate(bytes, checksum) -> ok/fail`, failing
exactly when the recomputed checksum differs from the expected bytes. -/
def Validate (data expected : List Nat) : Except Err Unit :=
  if Checksum data = expected then .ok () else .error .invalidChecksum

end Crc16

namespace Key

/-- `VersionByteAccountID = 0xdd` from `key/key.go`. -/
def versionByteAccountID : Nat := 0xdd

/-- `VersionByteSeed = 0xff` from `key/key.go`. -/
def versionByteSeed : Nat := 0xff

/-- `checkValidVersionByte` from `key/key.go`. -/
def checkValidVersionByte (version : Nat) : Except Err Unit :=
  if version = versionByteAccountID then .ok ()
  else if version = versionByteSeed then .ok ()
  else .error .invalidVersionByte

/-- `decodeString` from `key/key.go`: base58-decode and require at least a
version byte and a two-byte checksum. -/
def decodeString (src : String) : Except Err (List Nat) :=
  match B58.decode src with
  | none => .error .base58DecodeFailed
  | some raw =>
    if raw.length < 3 then .error (.belowMinLength raw.length) else .ok raw

/-- `Decode` from `key/key.go`. -/
def Decode (expected : Nat) (src : String) : Except Err (List Nat) :=
  match checkValidVersionByte expected with
  | .error e => .error e
  | .ok _ =>
    match decodeString src with
    | .error e => .error e
    | .ok raw =>
      let version := raw.headI
      let vp := raw.take (raw.length - 2)
      let payload := (raw.take (raw.length - 2)).drop 1
      let checksum := raw.drop (raw.length - 2)
      if version ≠ expected then .error .invalidVersionByte
      else
        match Crc16.Validate vp checksum with
        | .error e => .error e
        | .ok _ => .ok payload

/-- `MustDecode` from `key/key.go` (Go panics on error; the error branch is
unreachable at every use the claims exercise). -/
def MustDecode (expected : Nat) (src : String) : List Nat :=
  match Decode expected src with
  | .ok d => d
  | .error _ => []

/-- `Encode` from `key/key.go`: version byte, payload, then the checksum of
the two, base58-encoded. -/
def Encode (version : Nat) (src : List Nat) : Except Err String :=
  match checkValidVersionByte version with
  | .error e => .error e
  | .ok _ =>
    let raw := version :: src
    .ok (B58.encode (raw ++ Crc16.Checksum raw))

/-- `MustEncode` from `key/key.go` (Go panics on error). -/
def MustEncode (version : Nat) (src : List Nat) : String :=
  match Encode version src with
  | .ok s => s
  | .error _ => ""

/-- `Version` from `key/key.go`. -/
def Version (src : String) : Except Err Nat :=
  match decodeString src with
  | .error e => .error e
  | .ok raw => .ok raw.headI

end Key

namespace Account

/-- The two account variants of the `account` package: `Full` holds a
seed-encoded key string, `FromAddress` holds an address-encoded key string. -/
inductive Account where
  | full (seed : String)
  | fromAddress (address : String)
  deriving DecidableEq, Repr

/-- The external ed25519 primitive (`golang.org/x/crypto/ed25519`), treated
as an opaque collaborator: deterministic key generation from a 32-byte
seed, signing, and verification. -/
structure Ed25519 where
  generateKey : List Nat → List Nat × List Nat
  sign : List Nat → List Nat → List Nat
  verify : List Nat → List Nat → List Nat → Bool

/-- `ed25519.PublicKeySize`. -/
def ed25519PublicKeySize : Nat := 32

/-- `ed25519.PrivateKeySize` — the constant the `Verify` length guard in
`full.go` and `from_address.go` compares against. -/
def ed25519PrivateKeySize : Nat := 64

/-- `ed25519.SignatureSize`. -/
def ed25519SignatureSize : Nat := 64

/-- `Full.rawSeed` from `account/full.go`. -/
def fullRawSeed (seed : String) : List Nat :=
  Key.MustDecode Key.versionByteSeed seed

/-- `Full.keys` from `account/full.go`: the keypair generated
deterministically from the raw seed. -/
def fullKeys (E : Ed25519) (seed : String) : List Nat × List Nat :=
  E.generateKey (fullRawSeed seed)

/-- `Full.publicKey` from `account/full.go`. -/
def fullPublicKey (E : Ed25519) (seed : String) : List Nat :=
  (fullKeys E seed).1

/-- `Full.Address` from `account/full.go`. -/
def fullAddress (E : Ed25519) (seed : String) : String :=
  Key.MustEncode Key.versionByteAccountID (fullPublicKey E seed)

/-- `Full.Seed` from `account/full.go`. -/
def fullSeed (seed : String) : Except Err String := .ok seed

/-- `Full.Sign` from `account/full.go`. -/
def fullSign (E : Ed25519) (seed : String) (input : List Nat) :
    Except Err (List Nat) :=
  .ok (E.sign (fullKeys E seed).2 input)

/-- `Full.Verify` from `account/full.go`: reject signatures whose length is
not `ed25519.PrivateKeySize`, otherwise call the primitive. -/
def fullVerify (E : Ed25519) (seed : String) (input sig : List Nat) :
    Except Err Unit :=
  if sig.length ≠ ed25519PrivateKeySize then .error .invalidSignature
  else if E.verify (fullPublicKey E seed) input sig then .ok ()
  else .error .invalidSignature

/-- `FromAddress.publicKey` from `account/from_address.go`: the decoded
address bytes copied into a 32-byte array. -/
def fromAddressPublicKey (address : String) : List Nat :=
  let bytes := Key.MustDecode Key.versionByteAccountID address
  bytes.take 32 ++ List.replicate (32 - bytes.length) 0

/-- `FromAddress.Address` from `account/from_address.go`. -/
def fromAddressAddress (address : String) : String := address

/-- `FromAddress.Seed` from `account/from_address.go`. -/
def fromAddressSeed (address : String) : Except Err String := .error .noSeed

/-- `FromAddress.Sign` from `account/from_address.go`. -/
def fromAddressSign (address : String) (input : List Nat) :
    Except Err (List Nat) :=
  .error .cannotSign

/-- `FromAddress.Decrypt` from `account/from_address.go`. -/
def fromAddressDecrypt (address : String) (input : List Nat) :
    Except Err (List Nat) :=
  .error .cannotDecrypt

/-- `FromAddress.Verify` from `account/from_address.go`: same length guard
and primitive call as `Full.Verify`, against the stored address's key. -/
def fromAddressVerify (E : Ed25519) (address : String) (input sig : List Nat) :
    Except Err Unit :=
  if sig.length ≠ ed25519PrivateKeySize then .error .invalidSignature
  else if E.verify (fromAddressPublicKey address) input sig then .ok ()
  else .error .invalidSignature

/-- `Parse` from `account/main.go`, abstracted over the key decoder so that
control flow (which decode attempts are consulted) is visible in the
statement of theorems; `Parse` itself instantiates it with `Key.Decode`. -/
def parseWith (dec : Nat → String → Except Err (List Nat))
    (addressOrSeed : String) : Except Err Account :=
  match dec Key.versionByteAccountID addressOrSeed with
  | .ok _ => .ok (.fromAddress addressOrSeed)
  | .error e =>
    if e ≠ .invalidVersionByte then .error e
    else
      match dec Key.versionByteSeed addressOrSeed with
      | .ok _ => .ok (.full addressOrSeed)
      | .error e2 => .error e2

/-- `Parse` from `account/main.go`. -/
def Parse (addressOrSeed : String) : Except Err Account :=
  parseWith Key.Decode addressOrSeed

/-- `FromRawSeed` from `account/main.go`. -/
def FromRawSeed (rawSeed : List Nat) : Except Err Account :=
  match Key.Encode Key.versionByteSeed rawSeed with
  | .error e => .error e
  | .ok seed => .ok (.full seed)

end Account

namespace Wallet

/-- The wallet value: a recovery phrase. -/
structure Wallet where
  recoveryPhrase : String
  deriving DecidableEq, Repr

/-- `NewWordCount` from the wallet source: exactly 12, 15, 18, 21 and 24
are accepted (Go stores the matching `WordCount` constant, which carries
the same integer value). -/
def NewWordCount (count : Int) : Except Err Int :=
  if count = 12 then .ok 12
  else if count = 15 then .ok 15
  else if count = 18 then .ok 18
  else if count = 21 then .ok 21
  else if count = 24 then .ok 24
  else .error .invalidWordCount

/-- `WordCount.EntropySize` from the wallet source (the `default` branch
mirrors Go's `switch`, which falls back to 256 for non-constant values). -/
def EntropySize (w : Int) : Nat :=
  if w = 12 then 128
  else if w = 15 then 160
  else if w = 18 then 192
  else if w = 21 then 224
  else if w = 24 then 256
  else 256

/-- `FromWordCount` from the wallet source, abstracted over `FromEntropy`
(which draws randomness and builds a mnemonic through the external bip39
library): validate the word count, then hand its entropy size on. -/
def FromWordCount (fromEntropy : Nat → Except Err Wallet)
    (wordCount : Int) : Except Err Wallet :=
  match NewWordCount wordCount with
  | .error e => .error e
  | .ok wc => fromEntropy (EntropySize wc)

end Wallet

/-- A concrete stand-in for the external ed25519 primitive, used to
instantiate theorems that are universally quantified over the scheme: key
generation copies the seed, a signature is 63 zero bytes plus one byte
tagging the message, verification recomputes that tag. -/
def Account.toyScheme : Account.Ed25519 :=
  ⟨fun sd => (sd, sd),
   fun _ msg => List.replicate 63 0 ++ [if msg = [1] then 1 else 2],
   fun _ msg sig => sig == List.replicate 63 0 ++ [if msg = [1] then 1 else 2]⟩

theorem digitsFuel_eq (b : Nat) (hb : 1 < b) :
    ∀ fuel n, n ≤ fuel → digitsFuel b fuel n = Nat.digits b n := by
  intro fuel
  induction fuel with
  | zero => intro n hn; interval_cases n; simp [digitsFuel]
  | succ f ih =>
    intro n hn
    by_cases h0 : n = 0
    · subst h0; simp [digitsFuel]
    · rw [digitsFuel, if_neg h0, Nat.digits_def' hb (Nat.pos_of_ne_zero h0),
        ih (n / b) ?_]
      have := Nat.div_lt_self (Nat.pos_of_ne_zero h0) hb
      omega

theorem digitsLE_eq (b : Nat) (hb : 1 < b) (n : Nat) : digitsLE b n = Nat.digits b n :=
  digitsFuel_eq b hb n n le_rfl

theorem ofDigitsLE_eq (b : Nat) (l : List Nat) : ofDigitsLE b l = Nat.ofDigits b l := by
  induction l with
  | nil => rfl
  | cons d ds ih => simp [ofDigitsLE, Nat.ofDigits_cons, ih]

theorem ofDigitsLE_append (b : Nat) (l1 l2 : List Nat) :
    ofDigitsLE b (l1 ++ l2) = ofDigitsLE b l1 + b ^ l1.length * ofDigitsLE b l2 := by
  rw [ofDigitsLE_eq, ofDigitsLE_eq, ofDigitsLE_eq, Nat.ofDigits_append]

theorem ofDigitsLE_replicate_zero (b z : Nat) :
    ofDigitsLE b (List.replicate z 0) = 0 := by
  induction z with
  | zero => rfl
  | succ z ih => simp [List.replicate_succ, ofDigitsLE, ih]

theorem ofDigitsLE_digitsLE (b : Nat) (hb : 1 < b) (n : Nat) :
    ofDigitsLE b (digitsLE b n) = n := by
  rw [digitsLE_eq b hb, ofDigitsLE_eq, Nat.ofDigits_digits]

theorem digitsLE_ofDigitsLE (b : Nat) (hb : 1 < b) (l : List Nat)
    (h1 : ∀ d ∈ l, d < b) (h2 : ∀ h : l ≠ [], l.getLast h ≠ 0) :
    digitsLE b (ofDigitsLE b l) = l := by
  rw [digitsLE_eq b hb, ofDigitsLE_eq, Nat.digits_ofDigits b hb l h1 h2]

theorem digitsLE_lt (b : Nat) (hb : 1 < b) (n : Nat) :
    ∀ d ∈ digitsLE b n, d < b := by
  rw [digitsLE_eq b hb]
  intro d hd
  exact Nat.digits_lt_base hb hd

theorem digitsLE_ne_nil_iff (b : Nat) (hb : 1 < b) (n : Nat) :
    digitsLE b n ≠ [] ↔ n ≠ 0 := by
  rw [digitsLE_eq b hb]
  exact Nat.digits_ne_nil_iff_ne_zero

theorem digitsLE_getLast?_ne_zero (b : Nat) (hb : 1 < b) (n : Nat) (hn : n ≠ 0) :
    (digitsLE b n).getLast? ≠ some 0 := by
  rw [digitsLE_eq b hb]
  have h1 : Nat.digits b n ≠ [] := Nat.digits_ne_nil_iff_ne_zero.mpr hn
  have h2 := Nat.getLast_digit_ne_zero b hn
  rw [List.getLast?_eq_getLast _ h1]
  intro hc
  exact h2 (Option.some_injective _ hc)

namespace B58

theorem toList_mk (l : List Char) : (String.mk l).toList = l := rfl

theorem b58Digit_b58Char : ∀ d, d < 58 → b58Digit (b58Char d) = some d := by decide

theorem b58Digit_one : b58Digit '1' = some 0 := by decide

theorem b58Char_ne_one : ∀ d, d < 58 → d ≠ 0 → b58Char d ≠ '1' := by decide

theorem b58Digits_append (l1 l2 : List Char) (ds1 ds2 : List Nat)
    (h1 : b58Digits l1 = some ds1) (h2 : b58Digits l2 = some ds2) :
    b58Digits (l1 ++ l2) = some (ds1 ++ ds2) := by
  induction l1 generalizing ds1 with
  | nil =>
    simp only [b58Digits] at h1
    cases h1
    simpa using h2
  | cons c cs ih =>
    simp only [b58Digits] at h1 ⊢
    cases hc : b58Digit c with
    | none => rw [hc] at h1; exact absurd h1 (by simp)
    | some d =>
      cases hcs : b58Digits cs with
      | none => rw [hc, hcs] at h1; exact absurd h1 (by simp)
      | some ds =>
        rw [hc, hcs] at h1
        cases h1
        rw [show cs.append l2 = cs ++ l2 from rfl, ih ds hcs]
        rfl

theorem b58Digits_replicate_one (z : Nat) :
    b58Digits (List.replicate z '1') = some (List.replicate z 0) := by
  induction z with
  | zero => rfl
  | succ z ih =>
    simp only [List.replicate_succ, b58Digits]
    rw [b58Digit_one, ih]

theorem b58Digits_map (ds : List Nat) (h : ∀ d ∈ ds, d < 58) :
    b58Digits (ds.map b58Char) = some ds := by
  induction ds with
  | nil => rfl
  | cons d rest ih =>
    simp only [List.map_cons, b58Digits]
    rw [b58Digit_b58Char d (h d (by simp)), ih (fun x hx => h x (by simp [hx]))]

theorem takeWhile_replicate_append {α : Type} (p : α → Bool) (a : α) (z : Nat)
    (l : List α) (ha : p a = true) (hl : ∀ hd ∈ l.head?, p hd = false) :
    (List.replicate z a ++ l).takeWhile p = List.replicate z a := by
  induction z with
  | zero =>
    simp only [List.replicate, List.nil_append]
    cases l with
    | nil => rfl
    | cons hd tl =>
      have hhd := hl hd (by simp)
      simp [List.takeWhile_cons, hhd]
  | succ z ih =>
    simp [List.replicate_succ, List.cons_append, List.takeWhile_cons, ha, ih]

/-- Round-trip of the modelled `mr-tron/base58` codec: decoding an encoded
nonempty byte string recovers it exactly. -/
theorem decode_encode_core (z : Nat) (rest : List Nat)
    (hrest : ∀ b ∈ rest, b < 256)
    (hhead : ∀ hd ∈ rest.head?, hd ≠ 0)
    (hne : z ≠ 0 ∨ rest ≠ []) :
    decode (String.mk (List.replicate z '1' ++
      (digitsLE 58 (ofDigitsLE 256 rest.reverse)).reverse.map b58Char)) =
      some (List.replicate z 0 ++ rest) := by
  by_cases hr : rest = []
  · subst hr
    have hz : z ≠ 0 := by
      rcases hne with h | h
      · exact h
      · exact absurd rfl h
    simp only [List.reverse_nil, ofDigitsLE]
    show decode (String.mk (List.replicate z '1' ++
      (digitsLE 58 0).reverse.map b58Char)) = some (List.replicate z 0 ++ [])
    have hdz : digitsLE 58 0 = [] := rfl
    rw [hdz]
    simp only [List.reverse_nil, List.map_nil, List.append_nil]
    simp only [decode, toList_mk]
    rw [if_neg (by simp [hz])]
    rw [b58Digits_replicate_one z]
    simp only [List.takeWhile_replicate]
    rw [if_pos (by rfl)]
    simp [List.reverse_replicate, ofDigitsLE_replicate_zero]
    rfl
  · have hhd : rest.head hr ≠ 0 :=
      hhead (rest.head hr) (by rw [List.head?_eq_head hr]; rfl)
    have hlast : ∀ h : rest.reverse ≠ [], rest.reverse.getLast h ≠ 0 := by
      intro h
      rw [List.getLast_reverse]
      exact hhd
    have hrev_lt : ∀ d ∈ rest.reverse, d < 256 :=
      fun d hd => hrest d (List.mem_reverse.mp hd)
    have hdig : digitsLE 256 (ofDigitsLE 256 rest.reverse) = rest.reverse :=
      digitsLE_ofDigitsLE 256 (by norm_num) _ hrev_lt hlast
    have hN0 : ofDigitsLE 256 rest.reverse ≠ 0 := by
      intro h
      rw [h] at hdig
      have : rest.reverse = [] := by rw [← hdig]; rfl
      exact hr (by simpa using this)
    have h58ne : digitsLE 58 (ofDigitsLE 256 rest.reverse) ≠ [] :=
      (digitsLE_ne_nil_iff 58 (by norm_num) _).mpr hN0
    have h58lt : ∀ d ∈ digitsLE 58 (ofDigitsLE 256 rest.reverse), d < 58 :=
      digitsLE_lt 58 (by norm_num) _
    have hLne : (digitsLE 58 (ofDigitsLE 256 rest.reverse)).reverse.map b58Char ≠ [] := by
      simp [h58ne]
    have hcsne : List.replicate z '1' ++
        (digitsLE 58 (ofDigitsLE 256 rest.reverse)).reverse.map b58Char ≠ [] := by
      intro h
      exact hLne (List.append_eq_nil.mp h).2
    have hds : b58Digits (List.replicate z '1' ++
        (digitsLE 58 (ofDigitsLE 256 rest.reverse)).reverse.map b58Char) =
        some (List.replicate z 0 ++ (digitsLE 58 (ofDigitsLE 256 rest.reverse)).reverse) :=
      b58Digits_append _ _ _ _ (b58Digits_replicate_one z)
        (b58Digits_map _ (fun d hd => h58lt d (List.mem_reverse.mp hd)))
    have htake : (List.replicate z '1' ++
        (digitsLE 58 (ofDigitsLE 256 rest.reverse)).reverse.map b58Char).takeWhile
          (· == '1') = List.replicate z '1' := by
      apply takeWhile_replicate_append _ _ _ _ rfl
      intro hd hmem
      rw [List.head?_map, List.head?_reverse] at hmem
      rcases Option.map_eq_some'.mp (Option.mem_def.mp hmem) with ⟨d, hdlast, hdchar⟩
      have hdmem : d ∈ digitsLE 58 (ofDigitsLE 256 rest.reverse) := by
        rcases List.mem_getLast?_eq_getLast (Option.mem_def.mpr hdlast) with ⟨hne', heq⟩
        rw [heq]
        exact List.getLast_mem hne'
      have hd0 : d ≠ 0 := by
        intro h0
        exact digitsLE_getLast?_ne_zero 58 (by norm_num) _ hN0 (h0 ▸ hdlast)
      subst hdchar
      exact beq_eq_false_iff_ne.mpr (b58Char_ne_one d (h58lt d hdmem) hd0)
    simp only [decode, toList_mk]
    rw [if_neg hcsne, hds]
    simp only [htake, List.length_replicate]
    rw [List.reverse_append, List.reverse_reverse, List.reverse_replicate]
    rw [ofDigitsLE_append, ofDigitsLE_replicate_zero, Nat.mul_zero, Nat.add_zero]
    rw [ofDigitsLE_digitsLE 58 (by norm_num), hdig, List.reverse_reverse]

/-- Round-trip of the modelled base58 codec, stated on the byte string. -/
theorem decode_encode (bs : List Nat) (hne : bs ≠ []) (hlt : ∀ b ∈ bs, b < 256) :
    decode (encode bs) = some bs := by
  have htw : bs.takeWhile (· == 0) = List.replicate (bs.takeWhile (· == 0)).length 0 :=
    List.eq_replicate_of_mem (fun b hb => by
      have := List.mem_takeWhile_imp hb
      simpa [beq_iff_eq] using this)
  have hsplit : List.replicate (bs.takeWhile (· == 0)).length 0 ++
      bs.dropWhile (· == 0) = bs := by
    rw [← htw]
    exact List.takeWhile_append_dropWhile (· == 0) bs
  have hval : ofDigitsLE 256 bs.reverse =
      ofDigitsLE 256 (bs.dropWhile (· == 0)).reverse := by
    conv_lhs => rw [← hsplit]
    rw [List.reverse_append, ofDigitsLE_append, List.reverse_replicate,
      ofDigitsLE_replicate_zero, Nat.mul_zero, Nat.add_zero]
  have hdrop_lt : ∀ b ∈ bs.dropWhile (· == 0), b < 256 := by
    intro b hb
    apply hlt
    rw [← hsplit]
    exact List.mem_append_right _ hb
  have hdrop_head : ∀ hd ∈ (bs.dropWhile (· == 0)).head?, hd ≠ 0 := by
    intro hd hmem
    have hh := List.head?_dropWhile_not (· == 0) bs
    rw [Option.mem_def.mp hmem] at hh
    simpa [beq_iff_eq] using hh
  have hzr : (bs.takeWhile (· == 0)).length ≠ 0 ∨ bs.dropWhile (· == 0) ≠ [] := by
    by_contra hcon
    push_neg at hcon
    apply hne
    rw [← hsplit, hcon.1, hcon.2]
    rfl
  have := decode_encode_core (bs.takeWhile (· == 0)).length (bs.dropWhile (· == 0))
    hdrop_lt hdrop_head hzr
  rw [hsplit] at this
  rw [encode]
  simp only [hval]
  exact this

end B58

namespace Crc16

theorem Checksum_length (bs : List Nat) : (Checksum bs).length = 2 := rfl

theorem Checksum_lt (bs : List Nat) : ∀ b ∈ Checksum bs, b < 256 := by
  intro b hb
  simp only [Checksum, List.mem_cons, List.mem_singleton] at hb
  rcases hb with h | h | h
  · omega
  · subst h; exact Nat.mod_lt _ (by norm_num)
  · cases h

theorem Validate_Checksum (bs : List Nat) : Validate bs (Checksum bs) = .ok () := by
  simp [Validate]

end Crc16


namespace Key

theorem checkValidVersionByte_ok (t : Nat)
    (ht : t = versionByteAccountID ∨ t = versionByteSeed) :
    checkValidVersionByte t = .ok () := by
  rcases ht with h | h <;> subst h <;> decide

theorem encode_ok (t : Nat)
    (ht : t = versionByteAccountID ∨ t = versionByteSeed) (p : List Nat) :
    Encode t p = .ok (B58.encode ((t :: p) ++ Crc16.Checksum (t :: p))) := by
  unfold Encode
  rw [checkValidVersionByte_ok t ht]

theorem mustEncode_eq (t : Nat)
    (ht : t = versionByteAccountID ∨ t = versionByteSeed) (p : List Nat) :
    MustEncode t p = B58.encode ((t :: p) ++ Crc16.Checksum (t :: p)) := by
  unfold MustEncode
  rw [encode_ok t ht p]

theorem decodeString_ok (s : String) (raw : List Nat)
    (hb : B58.decode s = some raw) (h3 : ¬raw.length < 3) :
    decodeString s = .ok raw := by
  unfold decodeString
  rw [hb]
  exact if_neg h3

theorem Decode_of_decodeString_ok (expected : Nat) (s : String) (raw : List Nat)
    (hchk : checkValidVersionByte expected = .ok ())
    (hds : decodeString s = .ok raw) :
    Decode expected s =
      if raw.headI ≠ expected then .error .invalidVersionByte
      else
        match Crc16.Validate (raw.take (raw.length - 2)) (raw.drop (raw.length - 2)) with
        | .error e => .error e
        | .ok _ => .ok ((raw.take (raw.length - 2)).drop 1) := by
  unfold Decode
  rw [hchk, hds]

theorem Decode_of_decodeString_error (expected : Nat) (s : String) (e : Err)
    (hchk : checkValidVersionByte expected = .ok ())
    (hds : decodeString s = .error e) :
    Decode expected s = .error e := by
  unfold Decode
  rw [hchk, hds]

theorem decode_mustEncode (t expected : Nat)
    (ht : t = versionByteAccountID ∨ t = versionByteSeed)
    (hexp : expected = versionByteAccountID ∨ expected = versionByteSeed)
    (p : List Nat) (hp : ∀ b ∈ p, b < 256) :
    Decode expected (MustEncode t p) =
      if expected = t then .ok p else .error .invalidVersionByte := by
  have ht256 : t < 256 := by rcases ht with h | h <;> subst h <;> decide
  have hrawne : (t :: p) ++ Crc16.Checksum (t :: p) ≠ [] := by simp
  have hrawlt : ∀ b ∈ (t :: p) ++ Crc16.Checksum (t :: p), b < 256 := by
    intro b hb
    rcases List.mem_append.mp hb with h | h
    · rcases List.mem_cons.mp h with h | h
      · subst h; exact ht256
      · exact hp b h
    · exact Crc16.Checksum_lt _ b h
  have hb58 := B58.decode_encode _ hrawne hrawlt
  have hlen : ((t :: p) ++ Crc16.Checksum (t :: p)).length = p.length + 3 := by
    rw [List.length_append, List.length_cons, Crc16.Checksum_length]
  have htake : ((t :: p) ++ Crc16.Checksum (t :: p)).take
      (((t :: p) ++ Crc16.Checksum (t :: p)).length - 2) = t :: p :=
    List.take_left' (by rw [hlen, List.length_cons]; omega)
  have hdrop : ((t :: p) ++ Crc16.Checksum (t :: p)).drop
      (((t :: p) ++ Crc16.Checksum (t :: p)).length - 2) = Crc16.Checksum (t :: p) :=
    List.drop_left' (by rw [hlen, List.length_cons]; omega)
  have hhead : ((t :: p) ++ Crc16.Checksum (t :: p)).headI = t := rfl
  have hds : decodeString (B58.encode ((t :: p) ++ Crc16.Checksum (t :: p))) =
      .ok ((t :: p) ++ Crc16.Checksum (t :: p)) :=
    decodeString_ok _ _ hb58 (by rw [hlen]; omega)
  rw [mustEncode_eq t ht p,
    Decode_of_decodeString_ok expected _ _ (checkValidVersionByte_ok expected hexp) hds]
  rw [hhead, htake, hdrop]
  by_cases he : expected = t
  · rw [if_neg (by simp [he]), Crc16.Validate_Checksum, if_pos he]
    rfl
  · rw [if_pos (fun hc => he hc.symm), if_neg he]

end Key

/-- C1: for every 32-byte payload `p` and version tag `t` in
{`AccountID` (0xDD), `Seed` (0xFF)}, encoding `p` under `t` succeeds and
decoding the result with the same expected tag `t` returns exactly `p`:
`Decode(t, Encode(t, p)) == p`. -/
theorem Key.encode_decode_roundtrip (t : Nat)
    (ht : t = Key.versionByteAccountID ∨ t = Key.versionByteSeed)
    (p : List Nat) (hlen : p.length = 32) (hp : ∀ b ∈ p, b < 256) :
    Key.Encode t p = .ok (Key.MustEncode t p) ∧
    Key.Decode t (Key.MustEncode t p) = .ok p := by
  constructor
  · rw [Key.encode_ok t ht p, Key.mustEncode_eq t ht p]
  · rw [Key.decode_mustEncode t t ht ht p hp, if_pos rfl]

/-- Witness for C1 at tag 0xDD and the all-zero 32-byte payload. -/
theorem key_encode_decode_roundtrip_witness :
    Key.Encode 0xdd (List.replicate 32 0) =
      .ok (Key.MustEncode 0xdd (List.replicate 32 0)) ∧
    Key.Decode 0xdd (Key.MustEncode 0xdd (List.replicate 32 0)) =
      .ok (List.replicate 32 0) :=
  Key.encode_decode_roundtrip 0xdd (Or.inl rfl) (List.replicate 32 0)
    (by decide) (by decide)

/-- C2: on a `FromAddress` (address-only) account, `Sign` always fails with
`ErrCannotSign`, `Decrypt` always fails with `ErrCannotDecrypt`, and `Seed`
always fails with `ErrNoSeed`; none of the three ever succeeds. -/
theorem Account.fromAddress_capability_errors (address : String) (input : List Nat) :
    Account.fromAddressSign address input = .error .cannotSign ∧
    Account.fromAddressDecrypt address input = .error .cannotDecrypt ∧
    Account.fromAddressSeed address = .error .noSeed :=
  ⟨rfl, rfl, rfl⟩

/-- C10: for any requested version byte `v` other than 0xDD and 0xFF,
`Decode v s` fails with `ErrInvalidVersionByte` for every string `s`
(before `s` is examined at all) and `Encode v p` fails with the same error
for every payload `p`. -/
theorem Key.invalid_version_byte_rejected_upfront (v : Nat)
    (h1 : v ≠ Key.versionByteAccountID) (h2 : v ≠ Key.versionByteSeed) :
    (∀ s, Key.Decode v s = .error .invalidVersionByte) ∧
    (∀ p, Key.Encode v p = .error .invalidVersionByte) := by
  have hchk : Key.checkValidVersionByte v = .error .invalidVersionByte := by
    unfold Key.checkValidVersionByte
    rw [if_neg h1, if_neg h2]
  constructor
  · intro s
    unfold Key.Decode
    rw [hchk]
  · intro p
    unfold Key.Encode
    rw [hchk]

/-- Witness for C10 at version byte 0x00. -/
theorem key_invalid_version_byte_rejected_upfront_witness :
    (∀ s, Key.Decode 0 s = .error .invalidVersionByte) ∧
    (∀ p, Key.Encode 0 p = .error .invalidVersionByte) :=
  Key.invalid_version_byte_rejected_upfront 0 (by decide) (by decide)

theorem Account.parseWith_first_ok (dec : Nat → String → Except Err (List Nat))
    (s : String) (v : List Nat) (h : dec Key.versionByteAccountID s = .ok v) :
    Account.parseWith dec s = .ok (.fromAddress s) := by
  unfold Account.parseWith
  rw [h]

theorem Account.parseWith_first_error (dec : Nat → String → Except Err (List Nat))
    (s : String) (e : Err) (h : dec Key.versionByteAccountID s = .error e) :
    Account.parseWith dec s =
      if e ≠ .invalidVersionByte then .error e
      else
        match dec Key.versionByteSeed s with
        | .ok _ => .ok (.full s)
        | .error e2 => .error e2 := by
  unfold Account.parseWith
  rw [h]

/-- C3: `Parse` first attempts the AccountID decode; a failure other than
the version-mismatch sentinel is returned directly — for any decoder
behaviour on the Seed tag, so the second decode is never consulted — and
only on `ErrInvalidVersionByte` does `Parse` fall through to the Seed
decode, surfacing that decode's error when it also fails. -/
theorem Account.parse_short_circuit (dec : Nat → String → Except Err (List Nat))
    (s : String) (e : Err) (h : dec Key.versionByteAccountID s = .error e) :
    (Account.Parse s = Account.parseWith Key.Decode s) ∧
    (e ≠ .invalidVersionByte → Account.parseWith dec s = .error e) ∧
    (e = .invalidVersionByte →
      Account.parseWith dec s =
        match dec Key.versionByteSeed s with
        | .ok _ => .ok (.full s)
        | .error e2 => .error e2) := by
  refine ⟨rfl, ?_, ?_⟩
  · intro hne
    unfold Account.parseWith
    rw [h]
    exact if_pos hne
  · intro heq
    unfold Account.parseWith
    rw [h]
    exact if_neg (by simp [heq])

/-- Witness for C3 with a decoder that always fails with a checksum error
on the empty string. -/
theorem account_parse_short_circuit_witness :
    (Account.Parse "" = Account.parseWith Key.Decode "") ∧
    (Err.invalidChecksum ≠ Err.invalidVersionByte →
      Account.parseWith (fun _ _ => .error .invalidChecksum) "" =
        .error .invalidChecksum) ∧
    (Err.invalidChecksum = Err.invalidVersionByte →
      Account.parseWith (fun _ _ => .error .invalidChecksum) "" =
        .error .invalidChecksum) :=
  Account.parse_short_circuit (fun _ _ => .error .invalidChecksum) ""
    .invalidChecksum rfl

/-- C4: `Parse` of a Seed-encoded 32-byte payload returns the `Full`
variant (never `FromAddress`), and `Parse` of an AccountID-encoded payload
returns the `FromAddress` variant (never `Full`). -/
theorem Account.parse_version_discrimination (p : List Nat)
    (hlen : p.length = 32) (hp : ∀ b ∈ p, b < 256) :
    Account.Parse (Key.MustEncode Key.versionByteSeed p) =
      .ok (.full (Key.MustEncode Key.versionByteSeed p)) ∧
    Account.Parse (Key.MustEncode Key.versionByteAccountID p) =
      .ok (.fromAddress (Key.MustEncode Key.versionByteAccountID p)) := by
  constructor
  · have h1 : Key.Decode Key.versionByteAccountID
        (Key.MustEncode Key.versionByteSeed p) = .error .invalidVersionByte := by
      rw [Key.decode_mustEncode Key.versionByteSeed Key.versionByteAccountID
        (Or.inr rfl) (Or.inl rfl) p hp]
      exact if_neg (by decide)
    have h2 : Key.Decode Key.versionByteSeed
        (Key.MustEncode Key.versionByteSeed p) = .ok p := by
      rw [Key.decode_mustEncode Key.versionByteSeed Key.versionByteSeed
        (Or.inr rfl) (Or.inr rfl) p hp]
      exact if_pos rfl
    unfold Account.Parse
    rw [Account.parseWith_first_error Key.Decode _ _ h1, if_neg (by simp), h2]
  · have h1 : Key.Decode Key.versionByteAccountID
        (Key.MustEncode Key.versionByteAccountID p) = .ok p := by
      rw [Key.decode_mustEncode Key.versionByteAccountID Key.versionByteAccountID
        (Or.inl rfl) (Or.inl rfl) p hp]
      exact if_pos rfl
    unfold Account.Parse
    rw [Account.parseWith_first_ok Key.Decode _ _ h1]

/-- Witness for C4 at the all-zero 32-byte payload. -/
theorem account_parse_version_discrimination_witness :
    Account.Parse (Key.MustEncode Key.versionByteSeed (List.replicate 32 0)) =
      .ok (.full (Key.MustEncode Key.versionByteSeed (List.replicate 32 0))) ∧
    Account.Parse (Key.MustEncode Key.versionByteAccountID (List.replicate 32 0)) =
      .ok (.fromAddress (Key.MustEncode Key.versionByteAccountID (List.replicate 32 0))) :=
  Account.parse_version_discrimination (List.replicate 32 0) (by decide) (by decide)

/-- C9: the wallet accepts exactly the word counts 12, 15, 18, 21, 24,
mapping them to entropy sizes 128, 160, 192, 224 and 256; any other count
makes `FromWordCount` fail with the invalid-word-count error whatever the
entropy machinery would do (it is never invoked). -/
theorem Wallet.wordCount_mapping :
    (∀ f : Nat → Except Err Wallet.Wallet,
      Wallet.FromWordCount f 12 = f 128 ∧ Wallet.FromWordCount f 15 = f 160 ∧
      Wallet.FromWordCount f 18 = f 192 ∧ Wallet.FromWordCount f 21 = f 224 ∧
      Wallet.FromWordCount f 24 = f 256) ∧
    (∀ (f : Nat → Except Err Wallet.Wallet) (c : Int),
      c ≠ 12 → c ≠ 15 → c ≠ 18 → c ≠ 21 → c ≠ 24 →
      Wallet.FromWordCount f c = .error .invalidWordCount) := by
  constructor
  · intro f
    exact ⟨rfl, rfl, rfl, rfl, rfl⟩
  · intro f c h12 h15 h18 h21 h24
    unfold Wallet.FromWordCount Wallet.NewWordCount
    rw [if_neg h12, if_neg h15, if_neg h18, if_neg h21, if_neg h24]

/-- Witness for C9 at word count 13. -/
theorem wallet_wordCount_mapping_witness :
    Wallet.FromWordCount (fun _ => .ok ⟨""⟩) 13 = .error .invalidWordCount :=
  Wallet.wordCount_mapping.2 (fun _ => .ok ⟨""⟩) 13
    (by decide) (by decide) (by decide) (by decide) (by decide)

/-- C5: with a valid expected tag `t`, `Decode t s` on a base58-decodable
string fails (with the minimum-length error) when fewer than 3 raw bytes
decode, fails with `ErrInvalidVersionByte` when the leading byte differs
from `t`, fails (with the checksum error) when the trailing two bytes are
not the checksum of the preceding bytes, and succeeds exactly when none of
these conditions holds. -/
theorem Key.decode_rejection_characterisation (t : Nat)
    (ht : t = Key.versionByteAccountID ∨ t = Key.versionByteSeed)
    (s : String) (raw : List Nat) (hb : B58.decode s = some raw) :
    (raw.length < 3 → Key.Decode t s = .error (.belowMinLength raw.length)) ∧
    (3 ≤ raw.length → raw.headI ≠ t →
      Key.Decode t s = .error .invalidVersionByte) ∧
    (3 ≤ raw.length → raw.headI = t →
      Crc16.Checksum (raw.take (raw.length - 2)) ≠ raw.drop (raw.length - 2) →
      Key.Decode t s = .error .invalidChecksum) ∧
    (3 ≤ raw.length → raw.headI = t →
      Crc16.Checksum (raw.take (raw.length - 2)) = raw.drop (raw.length - 2) →
      Key.Decode t s = .ok ((raw.take (raw.length - 2)).drop 1)) := by
  have hchk := Key.checkValidVersionByte_ok t ht
  refine ⟨?_, ?_, ?_, ?_⟩
  · intro h3
    have hds : Key.decodeString s = .error (.belowMinLength raw.length) := by
      unfold Key.decodeString
      rw [hb]
      exact if_pos h3
    exact Key.Decode_of_decodeString_error t s _ hchk hds
  · intro h3 hv
    rw [Key.Decode_of_decodeString_ok t s raw hchk
      (Key.decodeString_ok s raw hb (by omega))]
    exact if_pos hv
  · intro h3 hv hcs
    rw [Key.Decode_of_decodeString_ok t s raw hchk
      (Key.decodeString_ok s raw hb (by omega))]
    rw [if_neg (by simp [hv])]
    have : Crc16.Validate (raw.take (raw.length - 2)) (raw.drop (raw.length - 2)) =
        .error .invalidChecksum := by
      unfold Crc16.Validate
      exact if_neg hcs
    rw [this]
  · intro h3 hv hcs
    rw [Key.Decode_of_decodeString_ok t s raw hchk
      (Key.decodeString_ok s raw hb (by omega))]
    rw [if_neg (by simp [hv])]
    have : Crc16.Validate (raw.take (raw.length - 2)) (raw.drop (raw.length - 2)) =
        .ok () := by
      unfold Crc16.Validate
      exact if_pos hcs
    rw [this]

/-- Witness for C5 at tag 0xDD and the one-character string "1", whose
base58 decoding is the single byte 0x00. -/
theorem key_decode_rejection_characterisation_witness :
    (([0] : List Nat).length < 3 →
      Key.Decode 0xdd "1" = .error (.belowMinLength ([0] : List Nat).length)) ∧
    (3 ≤ ([0] : List Nat).length → ([0] : List Nat).headI ≠ 0xdd →
      Key.Decode 0xdd "1" = .error .invalidVersionByte) ∧
    (3 ≤ ([0] : List Nat).length → ([0] : List Nat).headI = 0xdd →
      Crc16.Checksum (([0] : List Nat).take (([0] : List Nat).length - 2)) ≠
        ([0] : List Nat).drop (([0] : List Nat).length - 2) →
      Key.Decode 0xdd "1" = .error .invalidChecksum) ∧
    (3 ≤ ([0] : List Nat).length → ([0] : List Nat).headI = 0xdd →
      Crc16.Checksum (([0] : List Nat).take (([0] : List Nat).length - 2)) =
        ([0] : List Nat).drop (([0] : List Nat).length - 2) →
      Key.Decode 0xdd "1" = .ok ((([0] : List Nat).take
        (([0] : List Nat).length - 2)).drop 1)) :=
  Key.decode_rejection_characterisation 0xdd (Or.inl rfl) "1" [0] (by decide)

/-- C6 counterexample: the claim "whenever `Decode` succeeds the payload is
exactly 32 bytes" is false — `Decode` performs no payload-length check, and
the string "2HWGH" (the encoding of the version byte 0xDD followed only by
its checksum) decodes successfully to the empty payload. -/
theorem key_decode_accepts_non_32_byte_payload :
    Key.Decode Key.versionByteAccountID "2HWGH" = .ok [] ∧
    ([] : List Nat).length ≠ 32 := by
  constructor
  · decide
  · decide

/-- C6 amended: whenever `Decode t s` succeeds, the returned payload's
length is the base58-decoded length minus 3 (version byte and checksum);
32 bytes is guaranteed only for strings encoded from 32-byte payloads, not
checked by `Decode` itself. -/
theorem Key.decode_payload_length (t : Nat) (s : String) (p : List Nat)
    (h : Key.Decode t s = .ok p) :
    ∃ raw, B58.decode s = some raw ∧ 3 ≤ raw.length ∧
      p.length = raw.length - 3 := by
  cases hc : Key.checkValidVersionByte t with
  | error e =>
    have : Key.Decode t s = .error e := by
      unfold Key.Decode
      rw [hc]
    rw [this] at h
    exact absurd h (by simp)
  | ok u =>
    cases u
    cases hb : B58.decode s with
    | none =>
      have hds : Key.decodeString s = .error .base58DecodeFailed := by
        unfold Key.decodeString
        rw [hb]
      rw [Key.Decode_of_decodeString_error t s _ hc hds] at h
      exact absurd h (by simp)
    | some raw =>
      by_cases h3 : raw.length < 3
      · have hds : Key.decodeString s = .error (.belowMinLength raw.length) := by
          unfold Key.decodeString
          rw [hb]
          exact if_pos h3
        rw [Key.Decode_of_decodeString_error t s _ hc hds] at h
        exact absurd h (by simp)
      · rw [Key.Decode_of_decodeString_ok t s raw hc
          (Key.decodeString_ok s raw hb h3)] at h
        refine ⟨raw, rfl, by omega, ?_⟩
        by_cases hv : raw.headI ≠ t
        · rw [if_pos hv] at h
          exact absurd h (by simp)
        · rw [if_neg hv] at h
          unfold Crc16.Validate at h
          by_cases hcs : Crc16.Checksum (raw.take (raw.length - 2)) =
              raw.drop (raw.length - 2)
          · rw [if_pos hcs] at h
            have hp : p = (raw.take (raw.length - 2)).drop 1 :=
              (Except.ok.inj h).symm
            subst hp
            rw [List.length_drop, List.length_take]
            omega
          · rw [if_neg hcs] at h
            exact absurd h (by simp)

/-- Witness for the amended C6 at the counterexample string. -/
theorem key_decode_payload_length_witness :
    ∃ raw, B58.decode "2HWGH" = some raw ∧ 3 ≤ raw.length ∧
      ([] : List Nat).length = raw.length - 3 :=
  Key.decode_payload_length 0xdd "2HWGH" [] (by decide)

/-- C7: on both account variants, `Verify` rejects any signature whose
length differs from the ed25519 signature size (64 bytes) with
`ErrInvalidSignature`, for every choice of underlying primitive — so the
primitive's verify routine is never invoked. -/
theorem Account.verify_length_guard (E E2 : Account.Ed25519)
    (seed address : String) (input sig : List Nat)
    (h : sig.length ≠ Account.ed25519SignatureSize) :
    Account.fullVerify E seed input sig = .error .invalidSignature ∧
    Account.fromAddressVerify E2 address input sig = .error .invalidSignature := by
  have h' : sig.length ≠ Account.ed25519PrivateKeySize := h
  constructor
  · unfold Account.fullVerify
    rw [if_pos h']
  · unfold Account.fromAddressVerify
    rw [if_pos h']

/-- Witness for C7 with the stand-in scheme and an empty signature. -/
theorem account_verify_length_guard_witness :
    Account.fullVerify Account.toyScheme "" [] [] = .error .invalidSignature ∧
    Account.fromAddressVerify Account.toyScheme "" [] [] =
      .error .invalidSignature :=
  Account.verify_length_guard Account.toyScheme Account.toyScheme "" "" [] []
    (by decide)

/-- C8: for a `Full` account built on a valid seed string and a primitive
satisfying the scheme's correctness contract (signatures verify under the
keypair generated from the same seed, and are 64 bytes long), `Sign`
followed by `Verify` of the same message succeeds, while `Verify` of a
different message fails with `ErrInvalidSignature` whenever the primitive
rejects it (the negligible-collision caveat of the claim). -/
theorem Account.sign_verify_correct (E : Account.Ed25519) (s : String)
    (p : List Nat) (hdec : Key.Decode Key.versionByteSeed s = .ok p)
    (hcorrect : ∀ sd msg,
      E.verify (E.generateKey sd).1 msg (E.sign (E.generateKey sd).2 msg) = true)
    (hsiglen : ∀ sk msg, (E.sign sk msg).length = 64)
    (m m' : List Nat) (hm : m' ≠ m)
    (hsound : E.verify (E.generateKey p).1 m' (E.sign (E.generateKey p).2 m) = false) :
    ∀ sig, Account.fullSign E s m = .ok sig →
      Account.fullVerify E s m sig = .ok () ∧
      Account.fullVerify E s m' sig = .error .invalidSignature := by
  intro sig hsig
  have hraw : Account.fullRawSeed s = p := by
    unfold Account.fullRawSeed Key.MustDecode
    rw [hdec]
  have hsig' : sig = E.sign (E.generateKey p).2 m := by
    unfold Account.fullSign Account.fullKeys at hsig
    rw [hraw] at hsig
    exact (Except.ok.inj hsig).symm
  subst hsig'
  have hlen : (E.sign (E.generateKey p).2 m).length ≠ Account.ed25519PrivateKeySize →
      False := by
    intro hcon
    exact hcon (hsiglen _ m)
  constructor
  · unfold Account.fullVerify Account.fullPublicKey Account.fullKeys
    rw [hraw, if_neg (fun hcon => hlen hcon), if_pos (hcorrect p m)]
  · unfold Account.fullVerify Account.fullPublicKey Account.fullKeys
    rw [hraw, if_neg (fun hcon => hlen hcon)]
    rw [hsound]
    rfl

/-- Witness for C8 with the stand-in scheme on the all-zero seed,
messages [1] and [2], and the concrete 64-byte signature it produces. -/
theorem account_sign_verify_correct_witness :
    Account.fullVerify Account.toyScheme
      (Key.MustEncode Key.versionByteSeed (List.replicate 32 0)) [1]
      (List.replicate 63 0 ++ [1]) = .ok () ∧
    Account.fullVerify Account.toyScheme
      (Key.MustEncode Key.versionByteSeed (List.replicate 32 0)) [2]
      (List.replicate 63 0 ++ [1]) = .error .invalidSignature :=
  Account.sign_verify_correct Account.toyScheme
    (Key.MustEncode Key.versionByteSeed (List.replicate 32 0))
    (List.replicate 32 0) (by decide)
    (by intro sd msg; simp [Account.toyScheme])
    (by intro sk msg; simp [Account.toyScheme])
    [1] [2] (by decide) (by decide)
    (List.replicate 63 0 ++ [1]) rfl
